import Mathlib

/-!
Verification of the MultiVis directory-generation core
(`HeatmapMultiVisu.py`, class `SpriteVisu`) against its specification.

The Python code is shallowly embedded:
* Python strings are `String`, ints are `Int`, list/dict/set state is
  explicit (`List`-based association lists; Python `set` is modelled as a
  duplicate-free list in insertion order — set iteration order is
  unspecified in Python, and every property proved here is insensitive to
  that order);
* fallible code paths (uncaught Python exceptions) are `Except RunError`;
* the SQLite sink is modelled as the list of rows inserted, the per-pair
  contact files as the association list `key ↦ lines` that
  `write_contact_files` serialises;
* a run that ends in `.error` never reaches `write_contact_files`, so
  `contactFiles` of an error is the empty family of files.
-/

set_option autoImplicit false

namespace MultiVis

universe u v

/-- Concatenation of the images of `f`, i.e. `List.flatMap`, written out so
that all of its lemmas are proved in this file. -/
def flatMapL {α : Type u} {β : Type v} (f : α → List β) : List α → List β
  | [] => []
  | a :: as => f a ++ flatMapL f as

/-- Python `s.split(c)` on a character list: `n` separators yield `n + 1`
(possibly empty) parts. -/
def splitCharList (c : Char) : List Char → List (List Char)
  | [] => [[]]
  | x :: xs =>
    if x = c then [] :: splitCharList c xs
    else
      match splitCharList c xs with
      | [] => [[x]]
      | y :: ys => (x :: y) :: ys

/-- Python `a, b = s.split(c)`: succeeds exactly when `c` occurs exactly once. -/
def splitExact2 (c : Char) (l : List Char) : Option (List Char × List Char) :=
  match splitCharList c l with
  | [a, b] => some (a, b)
  | _ => none

/-- Python `a, b = s.rsplit(c, 1)`: split at the last occurrence of `c`;
`none` when `c` does not occur (the two-name unpacking then raises). -/
def rsplitOnce (c : Char) : List Char → Option (List Char × List Char)
  | [] => none
  | x :: xs =>
    match rsplitOnce c xs with
    | some (l, r) => some (x :: l, r)
    | none => if x = c then some ([], xs) else none

/-- Python `a, b = s.split(c, 1)`: split at the first occurrence of `c`. -/
def splitOnceL (c : Char) : List Char → Option (List Char × List Char)
  | [] => none
  | x :: xs =>
    if x = c then some ([], xs)
    else (splitOnceL c xs).map fun lr => (x :: lr.1, lr.2)

/-- Helper for `pySplit`: `cur` is the current token, reversed. -/
def pySplitAux : List Char → List Char → List String
  | [], cur => if cur.isEmpty then [] else [String.mk cur.reverse]
  | ch :: rest, cur =>
    if ch.isWhitespace then
      if cur.isEmpty then pySplitAux rest []
      else String.mk cur.reverse :: pySplitAux rest []
    else pySplitAux rest (ch :: cur)

/-- Python `line.split()` (no argument): split on runs of whitespace,
dropping empty tokens. -/
def pySplit (s : String) : List String :=
  pySplitAux s.data []

/-- Digits of a Python integer literal after the first digit: single
underscores are allowed between digits, never leading, trailing or doubled. -/
def pyDigitsAux (acc : Nat) : List Char → Option Nat
  | [] => some acc
  | '_' :: c :: cs =>
    if c.isDigit then pyDigitsAux (acc * 10 + (c.toNat - 48)) cs else none
  | c :: cs =>
    if c.isDigit then pyDigitsAux (acc * 10 + (c.toNat - 48)) cs else none

/-- Digit part of a Python `int()` argument: at least one digit, with
Python's underscore-grouping rule. -/
def pyDigits : List Char → Option Nat
  | [] => none
  | c :: cs => if c.isDigit then pyDigitsAux (c.toNat - 48) cs else none

/-- Strip leading and trailing whitespace, as Python `int()` does. -/
def stripWS (l : List Char) : List Char :=
  ((l.dropWhile Char.isWhitespace).reverse.dropWhile Char.isWhitespace).reverse

/-- Python `int(s)`: optional surrounding whitespace, optional sign, ASCII
digits with underscore grouping; `none` models the `ValueError`. -/
def pyInt (l : List Char) : Option Int :=
  match stripWS l with
  | '-' :: rest => (pyDigits rest).map fun n => -(n : Int)
  | '+' :: rest => (pyDigits rest).map fun n => (n : Int)
  | rest => (pyDigits rest).map fun n => (n : Int)

/-- Python `a < b` on two strings' character lists: lexicographic
comparison of code points. -/
def charListLt : List Char → List Char → Bool
  | [], [] => false
  | [], _ :: _ => true
  | _ :: _, [] => false
  | a :: as, b :: bs =>
    if a < b then true
    else if b < a then false
    else charListLt as bs

/-- Python `a < b` on strings. -/
def pyStrLt (a b : String) : Bool :=
  charListLt a.data b.data

/-- Python `"\n".join(lines)`. -/
def joinLines : List String → String
  | [] => ""
  | [l] => l
  | l :: ls => l ++ "\n" ++ joinLines ls

/-- Python `itertools.combinations(l, 2)`: all pairs of elements at
positions `i < j`, in lexicographic position order. -/
def combinations2 {α : Type u} : List α → List (α × α)
  | [] => []
  | x :: xs => xs.map (fun y => (x, y)) ++ combinations2 xs

/-! ### Genomic size registry (`SpriteVisu.__init__`) -/

/-- JSON values, for the genomic size reference file. -/
inductive JsonVal where
  | null : JsonVal
  | bool (b : Bool) : JsonVal
  | num (n : Int) : JsonVal
  | str (s : String) : JsonVal
  | arr (xs : List JsonVal) : JsonVal
  | obj (fields : List (String × JsonVal)) : JsonVal

/-- State of the genomic size reference file on disk: absent, present but
not parseable as JSON, or parsed to a JSON value. -/
inductive RefFile where
  | missing : RefFile
  | unparseable : RefFile
  | parsed (v : JsonVal) : RefFile

/-- Spec-level classification of the fatal exceptions escaping
`SpriteVisu.__init__` (`FileNotFoundError`, `json.JSONDecodeError`, and the
`KeyError`/`TypeError`/`AttributeError` family from
`self._genomic_sizes["chromosomes"].keys()`). -/
inductive ConfigError where
  | fileMissing : ConfigError
  | malformed : ConfigError
  | noChromosomesKey : ConfigError
deriving DecidableEq

/-- First binding of key `k` in a JSON object field list. -/
def lookupObj (k : String) : List (String × JsonVal) → Option JsonVal
  | [] => none
  | f :: fs => if f.1 = k then some f.2 else lookupObj k fs

/-- The top-level `"chromosomes"` mapping of the reference JSON, when the
top level is an object and that key is bound to an object. -/
def chromosomesMapping : JsonVal → Option (List (String × JsonVal))
  | .obj fields =>
    match lookupObj "chromosomes" fields with
    | some (.obj chrFields) => some chrFields
    | _ => none
  | _ => none

/-- Embeds `SpriteVisu.__init__`'s loading of the genomic size file: open
the file, `json.load` it, and read `["chromosomes"].keys()`. Returns the
parsed JSON (kept for `save_meta`) and the chromosome name list. -/
def loadRegistry : RefFile → Except ConfigError (JsonVal × List String)
  | .missing => .error .fileMissing
  | .unparseable => .error .malformed
  | .parsed v =>
    match chromosomesMapping v with
    | some chrFields => .ok (v, chrFields.map (fun f => f.1))
    | none => .error .noChromosomesKey

/-! ### Contact generation (`SpriteVisu.generate_hsv` and helpers) -/

/-- Uncaught Python exceptions of the processing loop. -/
inductive RunError where
  | indexError : RunError
  | valueError : RunError
deriving DecidableEq

/-- One row of the SQLite `contacts` table; `start` and `stop` are kept as
the raw strings the code binds into the `INSERT`. -/
inductive DbRow where
  | full (chrom startS stopS clusterId : String) : DbRow
  | startOnly (chrom startS clusterId : String) : DbRow
deriving DecidableEq

/-- One invocation of `add_contact_to_list` as issued by `generate_hsv`. -/
structure ContactCall where
  chrom1 : String
  start1 : Int
  chrom2 : String
  start2 : Int
  inc1 : Int
  inc2 : Int
deriving DecidableEq

/-- Construction-time parameters of `SpriteVisu`. -/
structure Config where
  minClusterSize : Int
  maxClusterSize : Int
  startOnly : Bool
  chromosomeList : List String

/-- Mutable state of one run: the growing `_contact_lists` map (association
list in key-insertion order, as a Python `defaultdict` iterates) and the
rows inserted into the SQLite sink. -/
structure RunState where
  store : List (String × List String)
  dbRows : List DbRow
deriving DecidableEq

/-- Python `self._contact_lists[key].append(line)` on a
`defaultdict(list)`: append to the key's list, creating the key at the end
of the map when absent. -/
def storeAppend (store : List (String × List String)) (key line : String) :
    List (String × List String) :=
  match store with
  | [] => [(key, [line])]
  | kl :: rest =>
    if kl.1 = key then (kl.1, kl.2 ++ [line]) :: rest
    else kl :: storeAppend rest key line

/-- Embeds `SpriteVisu.add_contact_to_list`: drop the contact when either
chromosome is unrecognized, otherwise canonicalise the pair order
lexicographically and append `"start1,start2,inc2"` under key
`"chrom1-chrom2"`. -/
def add_contact_to_list (chromList : List String)
    (store : List (String × List String)) (clusterId : String)
    (chrom1 : String) (start1 : Int) (chrom2 : String) (start2 : Int)
    (inc1 inc2 : Int) : List (String × List String) :=
  if chrom1 ∉ chromList ∨ chrom2 ∉ chromList then store
  else if pyStrLt chrom2 chrom1 then
    storeAppend store (chrom2 ++ "-" ++ chrom1)
      (toString start2 ++ "," ++ toString start1 ++ "," ++ toString inc2)
  else
    storeAppend store (chrom1 ++ "-" ++ chrom2)
      (toString start1 ++ "," ++ toString start2 ++ "," ++ toString inc2)

/-- Python `bins[chrom].add(s)` on a `defaultdict(set)`: the set is
modelled as a duplicate-free list, keys in insertion order. -/
def binsAdd (bins : List (String × List Int)) (chrom : String) (s : Int) :
    List (String × List Int) :=
  match bins with
  | [] => [(chrom, [s])]
  | cb :: rest =>
    if cb.1 = chrom then (cb.1, if s ∈ cb.2 then cb.2 else cb.2 ++ [s]) :: rest
    else cb :: binsAdd rest chrom s

/-- Embeds the full-mode read parse of `generate_hsv`:
`_, coord = read.rsplit('_', 1)`, `chrom, position = coord.split(':')`,
`start, end = position.split('-')`, `int(start)`. Returns
`(chrom, int(start), start, end)`; `.error .valueError` models the
uncaught `ValueError` of any failing step. -/
def parseReadFull (read : String) :
    Except RunError (String × Int × String × String) :=
  match rsplitOnce '_' read.data with
  | none => .error .valueError
  | some pc =>
    match splitExact2 ':' pc.2 with
    | none => .error .valueError
    | some cp =>
      match splitExact2 '-' cp.2 with
      | none => .error .valueError
      | some se =>
        match pyInt se.1 with
        | none => .error .valueError
        | some s => .ok (String.mk cp.1, s, String.mk se.1, String.mk se.2)

/-- Embeds the start-only (legacy) read parse of `generate_hsv`:
`chrom, start = read.split(':', 1)`, `int(start)`. -/
def parseReadStart (read : String) : Except RunError (String × Int × String) :=
  match splitOnceL ':' read.data with
  | none => .error .valueError
  | some cs =>
    match pyInt cs.2 with
    | none => .error .valueError
    | some s => .ok (String.mk cs.1, s, String.mk cs.2)

/-- Whether the mode-appropriate read parse succeeds on a token. -/
def readParses (startOnly : Bool) (read : String) : Bool :=
  if startOnly then
    match parseReadStart read with
    | .ok _ => true
    | .error _ => false
  else
    match parseReadFull read with
    | .ok _ => true
    | .error _ => false

/-- Embeds the per-read loop of `generate_hsv`: each read is parsed, its
start added to the bins, and one row inserted into the SQLite sink; the
first parse failure aborts with the corresponding exception. -/
def parseReads (startOnly : Bool) (clusterId : String) :
    List String → List (String × List Int) → List DbRow →
    Except RunError (List (String × List Int) × List DbRow)
  | [], bins, rows => .ok (bins, rows)
  | r :: rs, bins, rows =>
    if startOnly then
      match parseReadStart r with
      | .error e => .error e
      | .ok csr =>
        parseReads startOnly clusterId rs (binsAdd bins csr.1 csr.2.1)
          (rows ++ [.startOnly csr.1 csr.2.2 clusterId])
    else
      match parseReadFull r with
      | .error e => .error e
      | .ok res =>
        parseReads startOnly clusterId rs (binsAdd bins res.1 res.2.1)
          (rows ++ [.full res.1 res.2.2.1 res.2.2.2 clusterId])

/-- One emitted intrachromosomal contact: both endpoints on `chrom`,
`inc1 = reads_len`, `inc2 = len(bin_set)`. -/
def mkIntraCall (chrom : String) (p : Int × Int) (readsLen binLen : Nat) :
    ContactCall :=
  ⟨chrom, p.1, chrom, p.2, (readsLen : Int), (binLen : Int)⟩

/-- The intrachromosomal emissions of one bins entry: `combinations(bin_set, 2)`
when the bin has more than one element. -/
def intraBlock (readsLen : Nat) (cb : String × List Int) : List ContactCall :=
  if cb.2.length > 1 then
    (combinations2 cb.2).map (fun p => mkIntraCall cb.1 p readsLen cb.2.length)
  else []

/-- Embeds the intrachromosomal loop of `generate_hsv` (lines 146–152). -/
def intraCalls (bins : List (String × List Int)) (readsLen : Nat) :
    List ContactCall :=
  flatMapL (intraBlock readsLen) bins

/-- The interchromosomal emissions for one ordered pair of bins entries:
the full cross product of start positions, each with
`inc1 = reads_len` and `inc2` the sum of the two bin sizes. -/
def crossBlock (readsLen : Nat) (pq : (String × List Int) × (String × List Int)) :
    List ContactCall :=
  flatMapL
    (fun s1 => pq.2.2.map (fun s2 =>
      ⟨pq.1.1, s1, pq.2.1, s2, (readsLen : Int),
        ((pq.1.2.length + pq.2.2.length : Nat) : Int)⟩))
    pq.1.2

/-- Embeds the interchromosomal double loop of `generate_hsv`
(lines 154–167): all index pairs `i < j` over the bins' key list. -/
def interCalls (bins : List (String × List Int)) (readsLen : Nat) :
    List ContactCall :=
  if bins.length > 1 then flatMapL (crossBlock readsLen) (combinations2 bins)
  else []

/-- Replay one emitted contact through `add_contact_to_list`. -/
def applyCall (chromList : List String) (clusterId : String)
    (store : List (String × List String)) (c : ContactCall) :
    List (String × List String) :=
  add_contact_to_list chromList store clusterId c.chrom1 c.start1 c.chrom2
    c.start2 c.inc1 c.inc2

/-- Embeds the body of `generate_hsv`'s `for line in file` loop: split the
line, read `data_split[0]` (an `IndexError` on a blank line), filter by the
cluster-size bounds, parse the reads, then fold the intra- and
interchromosomal emissions through `add_contact_to_list`. -/
def processLine (cfg : Config) (st : RunState) (line : String) :
    Except RunError RunState :=
  match pySplit line with
  | [] => .error .indexError
  | clusterId :: reads =>
    if ¬(cfg.minClusterSize ≤ (reads.length : Int) ∧
         (reads.length : Int) ≤ cfg.maxClusterSize) then .ok st
    else
      match parseReads cfg.startOnly clusterId reads [] [] with
      | .error e => .error e
      | .ok br =>
        .ok { store :=
                (intraCalls br.1 reads.length ++ interCalls br.1 reads.length).foldl
                  (applyCall cfg.chromosomeList clusterId) st.store,
              dbRows := st.dbRows ++ br.2 }

/-- Sequential processing of the cluster file's lines; the first uncaught
exception aborts the run. -/
def processLines (cfg : Config) (st : RunState) :
    List String → Except RunError RunState
  | [] => .ok st
  | l :: ls =>
    match processLine cfg st l with
    | .error e => .error e
    | .ok st' => processLines cfg st' ls

/-- Embeds `SpriteVisu.generate_hsv` over the cluster file's lines,
starting from the empty contact store and empty SQLite sink. -/
def generate_hsv (cfg : Config) (lines : List String) :
    Except RunError RunState :=
  processLines cfg { store := [], dbRows := [] } lines

/-- The per-pair contact files written by `write_contact_files`: one file
`"{key}.txt"` with the newline-joined lines, per key of the store. A run
that raised never reaches `write_contact_files`, so it writes no files. -/
def contactFiles (r : Except RunError RunState) : List (String × String) :=
  match r with
  | .error _ => []
  | .ok st => st.store.map (fun kl => (kl.1 ++ ".txt", joinLines kl.2))

/-- Top-level errors of one `main_mv.py` invocation. -/
inductive MainError where
  | config (e : ConfigError) : MainError
  | run (e : RunError) : MainError
deriving DecidableEq

/-- Everything one successful run writes: the `meta.json` value, the
per-pair contact files, and the SQLite rows. -/
structure RunOutput where
  meta : JsonVal
  files : List (String × String)
  rows : List DbRow

/-- Embeds `main_mv.py`: construct `SpriteVisu` (loading the registry —
any failure here is fatal and precedes every write), then `generate_hsv`.
An `.error` result models a run that produced no `RunOutput`. -/
def runMain (ref : RefFile) (minS maxS : Int) (startOnly : Bool)
    (lines : List String) : Except MainError RunOutput :=
  match loadRegistry ref with
  | .error e => .error (.config e)
  | .ok reg =>
    match generate_hsv ⟨minS, maxS, startOnly, reg.2⟩ lines with
    | .error e => .error (.run e)
    | .ok st =>
      .ok { meta := reg.1, files := contactFiles (.ok st), rows := st.dbRows }

/-- Number of read tokens on every line of the cluster file (the claim's
"total parsed reads across all clusters"). -/
def totalReadTokens (lines : List String) : Nat :=
  (lines.map (fun l => (pySplit l).length - 1)).sum

/-- Number of read tokens of one line that reach the SQLite `INSERT`: the
line's read count when it passes the size-bound filter, `0` otherwise. -/
def lineEligibleCount (cfg : Config) (line : String) : Nat :=
  let n := (pySplit line).length - 1
  if cfg.minClusterSize ≤ (n : Int) ∧ (n : Int) ≤ cfg.maxClusterSize then n
  else 0

/-- Number of read tokens on the lines whose clusters pass the size-bound
filter; only these reach the SQLite `INSERT`. -/
def eligibleReadTokens (cfg : Config) (lines : List String) : Nat :=
  (lines.map (lineEligibleCount cfg)).sum

/-- Row count of the relational sink of a run, when the run completed. -/
def dbRowCount (r : Except RunError RunState) : Option Nat :=
  match r with
  | .error _ => none
  | .ok st => some st.dbRows.length

/-! ### Predicates and invariants used by the theorems -/

/-- Whether an emitted contact is intrachromosomal on `chrom`. -/
def isIntraOn (chrom : String) (c : ContactCall) : Bool :=
  c.chrom1 == chrom && c.chrom2 == chrom

/-- Whether an emitted contact joins the (unordered) chromosome pair
`{c1, c2}`. -/
def isInterOn (c1 c2 : String) (c : ContactCall) : Bool :=
  (c.chrom1 == c1 && c.chrom2 == c2) || (c.chrom1 == c2 && c.chrom2 == c1)

/-- A store key as `add_contact_to_list` builds it: two recognized
chromosome names in canonical (non-descending) lexicographic order. -/
def GoodKey (cl : List String) (k : String) : Prop :=
  ∃ a b : String, a ∈ cl ∧ b ∈ cl ∧ pyStrLt b a = false ∧ k = a ++ "-" ++ b

/-- A contact line as `add_contact_to_list` renders it. -/
def GoodLine (line : String) : Prop :=
  ∃ x y w : Int, line = toString x ++ "," ++ toString y ++ "," ++ toString w

/-- Invariant of `_contact_lists`: every key is canonical over recognized
chromosomes and owns at least one well-formed contact line. -/
def StoreGood (cl : List String) (store : List (String × List String)) : Prop :=
  ∀ kl ∈ store, GoodKey cl kl.1 ∧ kl.2 ≠ [] ∧ ∀ line ∈ kl.2, GoodLine line

/-- Well-formedness of the `bins` map: distinct chromosome keys (a Python
dict) and duplicate-free position lists (Python sets). -/
def BinsWF (bins : List (String × List Int)) : Prop :=
  bins.Pairwise (fun p q => p.1 ≠ q.1) ∧ ∀ cb ∈ bins, cb.2.Nodup

/-! ### Concrete fixtures used by witnesses and counterexamples -/

/-- Configuration with bounds `[2, 10]`, full mode, a one-chromosome registry. -/
def cfgA : Config := ⟨2, 10, false, ["chr1"]⟩

/-- One cluster with a single read: below the minimum cluster size. -/
def linesA : List String := ["c1 r_chr1:1-2"]

/-- Configuration with bounds `[2, 10]`, full mode, a two-chromosome registry. -/
def cfgB : Config := ⟨2, 10, false, ["chr1", "chr2"]⟩

/-- The spec's end-to-end scenario plus one undersized cluster. -/
def linesB : List String :=
  ["c1 readA_chr1:10-20 readB_chr1:30-40 readC_chr2:5-15", "c2 r_chr1:1-2"]

/-- Final state of the `linesB` run under `cfgB`. -/
def stB : RunState :=
  { store := [("chr1-chr1", ["10,30,2"]), ("chr1-chr2", ["10,5,3", "30,5,3"])],
    dbRows := [.full "chr1" "10" "20" "c1", .full "chr1" "30" "40" "c1",
               .full "chr2" "5" "15" "c1"] }

/-- Read tokens of the first `linesB` cluster. -/
def readsB : List String :=
  ["readA_chr1:10-20", "readB_chr1:30-40", "readC_chr2:5-15"]

/-- Bins parsed from `readsB`. -/
def binsB : List (String × List Int) := [("chr1", [10, 30]), ("chr2", [5])]

/-- Relational rows parsed from `readsB`. -/
def rowsB : List DbRow :=
  [.full "chr1" "10" "20" "c1", .full "chr1" "30" "40" "c1",
   .full "chr2" "5" "15" "c1"]

/-- One cluster holding the same full-mode read twice. -/
def linesD : List String := ["c1 r_chr1:5-10 r_chr1:5-10"]

/-- Configuration admitting single-read clusters, full mode. -/
def cfgE : Config := ⟨1, 10, false, ["chr1"]⟩

/-- One size-eligible cluster whose only read token is malformed. -/
def linesE : List String := ["c1 bad"]

/-! ### Basic lemmas about the list and string helpers -/

theorem mem_flatMapL {α : Type u} {β : Type v} {f : α → List β} {b : β} :
    ∀ {l : List α}, b ∈ flatMapL f l ↔ ∃ a ∈ l, b ∈ f a := by
  intro l
  induction l with
  | nil => simp [flatMapL]
  | cons a as ih => simp [flatMapL, ih, List.mem_append, or_and_right, exists_or]

theorem filter_flatMapL {α : Type u} {β : Type v} (p : β → Bool)
    (f : α → List β) :
    ∀ l : List α, (flatMapL f l).filter p = flatMapL (fun a => (f a).filter p) l := by
  intro l
  induction l with
  | nil => rfl
  | cons a as ih => simp [flatMapL, List.filter_append, ih]

theorem flatMapL_eq_nil {α : Type u} {β : Type v} {f : α → List β}
    {l : List α} (h : ∀ a ∈ l, f a = []) : flatMapL f l = [] := by
  induction l with
  | nil => rfl
  | cons a as ih =>
    simp only [flatMapL, h a (List.mem_cons_self a as)]
    exact ih fun x hx => h x (List.mem_cons_of_mem a hx)

theorem length_combinations2 {α : Type u} :
    ∀ l : List α, (combinations2 l).length = l.length.choose 2 := by
  intro l
  induction l with
  | nil => rfl
  | cons a as ih =>
    simp only [combinations2, List.length_append, List.length_map, ih,
      List.length_cons]
    rw [Nat.choose_succ_succ, Nat.choose_one_right]

theorem combinations2_pairwise {α : Type u} {R : α → α → Prop} :
    ∀ {l : List α}, l.Pairwise R → ∀ p ∈ combinations2 l, R p.1 p.2 := by
  intro l
  induction l with
  | nil => intro _ p hp; simp [combinations2] at hp
  | cons a as ih =>
    intro hpw p hp
    rcases List.pairwise_cons.mp hpw with ⟨ha, htl⟩
    rcases List.mem_append.mp hp with h | h
    · rcases List.mem_map.mp h with ⟨y, hy, rfl⟩
      exact ha y hy
    · exact ih htl p h

theorem mem_combinations2 {α : Type u} :
    ∀ {l : List α} {p : α × α}, p ∈ combinations2 l → p.1 ∈ l ∧ p.2 ∈ l := by
  intro l
  induction l with
  | nil => intro p hp; simp [combinations2] at hp
  | cons a as ih =>
    intro p hp
    rcases List.mem_append.mp hp with h | h
    · rcases List.mem_map.mp h with ⟨y, hy, rfl⟩
      exact ⟨List.mem_cons_self a as, List.mem_cons_of_mem a hy⟩
    · rcases ih h with ⟨h1, h2⟩
      exact ⟨List.mem_cons_of_mem a h1, List.mem_cons_of_mem a h2⟩

theorem charListLt_irrefl : ∀ l : List Char, charListLt l l = false := by
  intro l
  induction l with
  | nil => rfl
  | cons a as ih => simp [charListLt, lt_irrefl, ih]

theorem charListLt_asymm :
    ∀ {l₁ l₂ : List Char}, charListLt l₁ l₂ = true → charListLt l₂ l₁ = false := by
  intro l₁
  induction l₁ with
  | nil =>
    intro l₂ h
    cases l₂ with
    | nil => simp [charListLt] at h
    | cons b bs => rfl
  | cons a as ih =>
    intro l₂ h
    cases l₂ with
    | nil => simp [charListLt] at h
    | cons b bs =>
      by_cases hab : a < b
      · have hba : ¬ b < a := lt_asymm hab
        simp [charListLt, hab, hba] at h ⊢
      · by_cases hba : b < a
        · simp [charListLt, hab, hba] at h
        · simp [charListLt, hab, hba] at h ⊢
          exact ih h

theorem charListLt_connex :
    ∀ {l₁ l₂ : List Char}, l₁ ≠ l₂ →
      charListLt l₁ l₂ = true ∨ charListLt l₂ l₁ = true := by
  intro l₁
  induction l₁ with
  | nil =>
    intro l₂ hne
    cases l₂ with
    | nil => exact absurd rfl hne
    | cons b bs => left; rfl
  | cons a as ih =>
    intro l₂ hne
    cases l₂ with
    | nil => right; rfl
    | cons b bs =>
      rcases lt_trichotomy a b with hab | hab | hab
      · left; simp [charListLt, hab]
      · subst hab
        have htl : as ≠ bs := fun h => hne (by rw [h])
        rcases ih htl with h | h
        · left; simp [charListLt, lt_irrefl, h]
        · right; simp [charListLt, lt_irrefl, h]
      · right; simp [charListLt, hab, lt_asymm hab]

theorem pyStrLt_asymm {a b : String} (h : pyStrLt a b = true) :
    pyStrLt b a = false :=
  charListLt_asymm h

theorem pyStrLt_connex {a b : String} (h : a ≠ b) :
    pyStrLt a b = true ∨ pyStrLt b a = true := by
  refine charListLt_connex fun hd => h ?_
  cases a; cases b; simp_all

/-! ### The contact-store invariant -/

theorem storeAppend_good {cl : List String} {key line : String} :
    ∀ {store : List (String × List String)}, StoreGood cl store →
      GoodKey cl key → GoodLine line → StoreGood cl (storeAppend store key line) := by
  intro store
  induction store with
  | nil =>
    intro _ hk hl kl hm
    simp only [storeAppend, List.mem_singleton] at hm
    subst hm
    exact ⟨hk, by simp, by simpa using hl⟩
  | cons hd tl ih =>
    intro hg hk hl kl hm
    simp only [storeAppend] at hm
    by_cases hcase : hd.1 = key
    · rw [if_pos hcase] at hm
      rcases List.mem_cons.mp hm with rfl | hmem
      · rcases hg hd (List.mem_cons_self hd tl) with ⟨hk', _, hlines⟩
        refine ⟨hk', by simp, ?_⟩
        intro l hml
        rcases List.mem_append.mp hml with h | h
        · exact hlines l h
        · rw [List.mem_singleton.mp h]; exact hl
      · exact hg kl (List.mem_cons_of_mem hd hmem)
    · rw [if_neg hcase] at hm
      rcases List.mem_cons.mp hm with rfl | hmem
      · exact hg kl (List.mem_cons_self kl tl)
      · exact ih (fun x hx => hg x (List.mem_cons_of_mem hd hx)) hk hl kl hmem

theorem add_contact_good {cl : List String}
    {store : List (String × List String)} (hg : StoreGood cl store)
    (cid chrom1 : String) (start1 : Int) (chrom2 : String) (start2 : Int)
    (inc1 inc2 : Int) :
    StoreGood cl (add_contact_to_list cl store cid chrom1 start1 chrom2 start2 inc1 inc2) := by
  unfold add_contact_to_list
  by_cases hv : chrom1 ∉ cl ∨ chrom2 ∉ cl
  · rw [if_pos hv]; exact hg
  · rw [if_neg hv]
    push_neg at hv
    obtain ⟨h1, h2⟩ := hv
    by_cases hsw : pyStrLt chrom2 chrom1 = true
    · rw [if_pos hsw]
      exact storeAppend_good hg ⟨chrom2, chrom1, h2, h1, pyStrLt_asymm hsw, rfl⟩
        ⟨start2, start1, inc2, rfl⟩
    · have hsw' : pyStrLt chrom2 chrom1 = false := by
        cases hb : pyStrLt chrom2 chrom1
        · rfl
        · exact absurd hb hsw
      rw [if_neg hsw]
      exact storeAppend_good hg ⟨chrom1, chrom2, h1, h2, hsw', rfl⟩
        ⟨start1, start2, inc2, rfl⟩

theorem foldl_applyCall_good {cl : List String} {cid : String} :
    ∀ (calls : List ContactCall) {store : List (String × List String)},
      StoreGood cl store → StoreGood cl (calls.foldl (applyCall cl cid) store) := by
  intro calls
  induction calls with
  | nil => intro _ hg; exact hg
  | cons c cs ih =>
    intro store hg
    exact ih (add_contact_good hg cid c.chrom1 c.start1 c.chrom2 c.start2 c.inc1 c.inc2)

theorem processLine_good {cfg : Config} {st st' : RunState} {line : String}
    (h : processLine cfg st line = .ok st')
    (hg : StoreGood cfg.chromosomeList st.store) :
    StoreGood cfg.chromosomeList st'.store := by
  unfold processLine at h
  split at h
  · exact absurd h (by simp)
  · split at h
    · cases h; exact hg
    · split at h
      · exact absurd h (by simp)
      · cases h; exact foldl_applyCall_good _ hg

theorem processLines_good {cfg : Config} :
    ∀ {lines : List String} {st st' : RunState},
      processLines cfg st lines = .ok st' →
      StoreGood cfg.chromosomeList st.store →
      StoreGood cfg.chromosomeList st'.store := by
  intro lines
  induction lines with
  | nil =>
    intro st st' h hg
    cases h
    exact hg
  | cons l ls ih =>
    intro st st' h hg
    unfold processLines at h
    rcases hl : processLine cfg st l with e | st₁ <;> rw [hl] at h
    · exact absurd h (by simp)
    · exact ih h (processLine_good hl hg)

theorem run_store_good {cfg : Config} {lines : List String} {st : RunState}
    (h : generate_hsv cfg lines = .ok st) :
    StoreGood cfg.chromosomeList st.store :=
  processLines_good h (by intro kl hm; simp at hm)

/-! ### Bins well-formedness -/

theorem binsAdd_keys {chrom : String} {s : Int} :
    ∀ {bins : List (String × List Int)} {q : String × List Int},
      q ∈ binsAdd bins chrom s → q.1 = chrom ∨ q.1 ∈ bins.map Prod.fst := by
  intro bins
  induction bins with
  | nil =>
    intro q hq
    simp only [binsAdd, List.mem_singleton] at hq
    subst hq
    exact Or.inl rfl
  | cons cb rest ih =>
    intro q hq
    simp only [binsAdd] at hq
    by_cases hc : cb.1 = chrom
    · rw [if_pos hc] at hq
      rcases List.mem_cons.mp hq with rfl | hm
      · exact Or.inl hc
      · exact Or.inr (List.mem_map_of_mem Prod.fst (List.mem_cons_of_mem cb hm))
    · rw [if_neg hc] at hq
      rcases List.mem_cons.mp hq with rfl | hm
      · exact Or.inr (by simp)
      · rcases ih hm with h | h
        · exact Or.inl h
        · exact Or.inr (by simp only [List.map_cons, List.mem_cons]; exact Or.inr h)

theorem binsAdd_wf {chrom : String} {s : Int} :
    ∀ {bins : List (String × List Int)}, BinsWF bins →
      BinsWF (binsAdd bins chrom s) := by
  intro bins
  induction bins with
  | nil =>
    intro _
    constructor
    · simp [binsAdd]
    · intro cb hcb
      simp only [binsAdd, List.mem_singleton] at hcb
      subst hcb
      simp
  | cons cb rest ih =>
    intro hwf
    obtain ⟨hpw, hnd⟩ := hwf
    rcases List.pairwise_cons.mp hpw with ⟨hhd, htl⟩
    by_cases hc : cb.1 = chrom
    · constructor
      · simp only [binsAdd, if_pos hc]
        exact List.pairwise_cons.mpr ⟨hhd, htl⟩
      · intro q hq
        simp only [binsAdd, if_pos hc] at hq
        rcases List.mem_cons.mp hq with rfl | hm
        · show (if s ∈ cb.2 then cb.2 else cb.2 ++ [s]).Nodup
          by_cases hs : s ∈ cb.2
          · rw [if_pos hs]; exact hnd cb (List.mem_cons_self cb rest)
          · rw [if_neg hs]
            refine List.Nodup.append (hnd cb (List.mem_cons_self cb rest))
              (List.nodup_singleton s) ?_
            intro a ha hb
            rw [List.mem_singleton] at hb
            subst hb
            exact hs ha
        · exact hnd q (List.mem_cons_of_mem cb hm)
    · have hrest : BinsWF (binsAdd rest chrom s) := ih ⟨htl, fun q hq => hnd q (List.mem_cons_of_mem cb hq)⟩
      constructor
      · simp only [binsAdd, if_neg hc]
        refine List.pairwise_cons.mpr ⟨?_, hrest.1⟩
        intro q hq
        rcases binsAdd_keys hq with h | h
        · rw [h]; exact hc
        · rcases List.mem_map.mp h with ⟨x, hx, hxe⟩
          rw [← hxe]
          exact hhd x hx
      · intro q hq
        simp only [binsAdd, if_neg hc] at hq
        rcases List.mem_cons.mp hq with rfl | hm
        · exact hnd q (List.mem_cons_self q rest)
        · exact hrest.2 q hm

theorem parseReads_wf {so : Bool} {cid : String} :
    ∀ {reads : List String} {bins bins' : List (String × List Int)}
      {rows rows' : List DbRow},
      parseReads so cid reads bins rows = .ok (bins', rows') →
      BinsWF bins → BinsWF bins' := by
  intro reads
  induction reads with
  | nil =>
    intro bins bins' rows rows' h hwf
    simp only [parseReads] at h
    cases h
    exact hwf
  | cons r rs ih =>
    intro bins bins' rows rows' h hwf
    simp only [parseReads] at h
    split at h
    · split at h
      · exact absurd h (by simp)
      · exact ih h (binsAdd_wf hwf)
    · split at h
      · exact absurd h (by simp)
      · exact ih h (binsAdd_wf hwf)

/-! ### Shape of the emitted contacts -/

theorem flatMapL_append {α : Type u} {β : Type v} (f : α → List β) :
    ∀ l₁ l₂ : List α, flatMapL f (l₁ ++ l₂) = flatMapL f l₁ ++ flatMapL f l₂ := by
  intro l₁ l₂
  induction l₁ with
  | nil => rfl
  | cons a as ih => simp [flatMapL, ih]

theorem flatMapL_map {α : Type u} {β : Type v} {γ : Type u} (f : β → List γ)
    (g : α → β) : ∀ l : List α, flatMapL f (l.map g) = flatMapL (fun a => f (g a)) l := by
  intro l
  induction l with
  | nil => rfl
  | cons a as ih => simp [flatMapL, ih]

theorem length_flatMapL_const {α : Type u} {β : Type v} {f : α → List β}
    {k : Nat} : ∀ {l : List α}, (∀ a ∈ l, (f a).length = k) →
      (flatMapL f l).length = l.length * k := by
  intro l
  induction l with
  | nil => intro _; simp [flatMapL]
  | cons a as ih =>
    intro h
    simp only [flatMapL, List.length_append, List.length_cons,
      h a (List.mem_cons_self a as), ih fun x hx => h x (List.mem_cons_of_mem a hx)]
    ring

theorem mem_intraBlock {n : Nat} {cb : String × List Int} {c : ContactCall}
    (h : c ∈ intraBlock n cb) :
    c.chrom1 = cb.1 ∧ c.chrom2 = cb.1 ∧ c.inc2 = (cb.2.length : Int) ∧
      ∃ p ∈ combinations2 cb.2, c = mkIntraCall cb.1 p n cb.2.length := by
  unfold intraBlock at h
  split at h
  · rcases List.mem_map.mp h with ⟨p, hp, rfl⟩
    exact ⟨rfl, rfl, rfl, p, hp, rfl⟩
  · simp at h

theorem mem_crossBlock {n : Nat} {pq : (String × List Int) × (String × List Int)}
    {c : ContactCall} (h : c ∈ crossBlock n pq) :
    c.chrom1 = pq.1.1 ∧ c.chrom2 = pq.2.1 ∧
      c.inc2 = ((pq.1.2.length + pq.2.2.length : Nat) : Int) ∧
      c.start1 ∈ pq.1.2 ∧ c.start2 ∈ pq.2.2 := by
  unfold crossBlock at h
  rcases mem_flatMapL.mp h with ⟨s1, hs1, hc⟩
  rcases List.mem_map.mp hc with ⟨s2, hs2, rfl⟩
  exact ⟨rfl, rfl, rfl, hs1, hs2⟩

theorem crossBlock_length (n : Nat)
    (pq : (String × List Int) × (String × List Int)) :
    (crossBlock n pq).length = pq.1.2.length * pq.2.2.length :=
  length_flatMapL_const fun _ _ => List.length_map _ _

theorem intraBlock_filter_self (n : Nat) (cb : String × List Int) :
    (intraBlock n cb).filter (isIntraOn cb.1) = intraBlock n cb := by
  refine List.filter_eq_self.mpr ?_
  intro c hc
  rcases mem_intraBlock hc with ⟨h1, h2, _, _⟩
  simp [isIntraOn, h1, h2]

theorem intraBlock_filter_ne {chrom : String} {cb : String × List Int}
    {n : Nat} (h : cb.1 ≠ chrom) :
    (intraBlock n cb).filter (isIntraOn chrom) = [] := by
  refine List.filter_eq_nil_iff.mpr ?_
  intro c hc
  rcases mem_intraBlock hc with ⟨h1, _, _, _⟩
  simp [isIntraOn, h1, h]

theorem intraCalls_filter {n : Nat} {chrom : String} {b : List Int} :
    ∀ {bins : List (String × List Int)},
      bins.Pairwise (fun p q => p.1 ≠ q.1) → (chrom, b) ∈ bins →
      (intraCalls bins n).filter (isIntraOn chrom) = intraBlock n (chrom, b) := by
  intro bins
  induction bins with
  | nil => intro _ hmem; simp at hmem
  | cons e rest ih =>
    intro hpw hmem
    rcases List.pairwise_cons.mp hpw with ⟨hhd, htl⟩
    show ((intraBlock n e ++ flatMapL (intraBlock n) rest).filter (isIntraOn chrom)) = _
    rw [List.filter_append]
    rcases List.mem_cons.mp hmem with heq | hmem'
    · have hkey : e.1 = chrom := by rw [← heq]
      have htail : (flatMapL (intraBlock n) rest).filter (isIntraOn chrom) = [] := by
        rw [filter_flatMapL]
        refine flatMapL_eq_nil ?_
        intro q hq
        exact intraBlock_filter_ne fun hcq => (hhd q hq) (by rw [hkey, hcq])
      rw [htail, List.append_nil, ← heq]
      exact intraBlock_filter_self n (chrom, b)
    · have hne : e.1 ≠ chrom := hhd (chrom, b) hmem'
      rw [intraBlock_filter_ne hne, List.nil_append]
      exact ih htl hmem'

theorem interCalls_filter_intra {n : Nat} {chrom : String}
    {bins : List (String × List Int)}
    (hpw : bins.Pairwise (fun p q => p.1 ≠ q.1)) :
    (interCalls bins n).filter (isIntraOn chrom) = [] := by
  unfold interCalls
  split
  · rw [filter_flatMapL]
    refine flatMapL_eq_nil ?_
    intro pq hpq
    have hne : pq.1.1 ≠ pq.2.1 := combinations2_pairwise hpw pq hpq
    refine List.filter_eq_nil_iff.mpr ?_
    intro c hc
    rcases mem_crossBlock hc with ⟨h1, h2, _, _⟩
    simp only [isIntraOn, h1, h2, Bool.and_eq_true, beq_iff_eq, not_and]
    intro ha hb
    exact hne (ha.trans hb.symm)
  · rfl

theorem isInterOn_comm (c1 c2 : String) (c : ContactCall) :
    isInterOn c1 c2 c = isInterOn c2 c1 c := by
  simp [isInterOn, Bool.or_comm]

theorem crossBlock_filter_hit {n : Nat} {c1 c2 : String}
    {pq : (String × List Int) × (String × List Int)}
    (h1 : pq.1.1 = c1) (h2 : pq.2.1 = c2) :
    (crossBlock n pq).filter (isInterOn c1 c2) = crossBlock n pq := by
  refine List.filter_eq_self.mpr ?_
  intro c hc
  rcases mem_crossBlock hc with ⟨hc1, hc2, _, _⟩
  simp [isInterOn, hc1, hc2, h1, h2]

theorem crossBlock_filter_miss {n : Nat} {c1 c2 : String}
    {pq : (String × List Int) × (String × List Int)}
    (h : ¬((pq.1.1 = c1 ∧ pq.2.1 = c2) ∨ (pq.1.1 = c2 ∧ pq.2.1 = c1))) :
    (crossBlock n pq).filter (isInterOn c1 c2) = [] := by
  refine List.filter_eq_nil_iff.mpr ?_
  intro c hc
  rcases mem_crossBlock hc with ⟨hc1, hc2, _, _⟩
  simp only [isInterOn, hc1, hc2, Bool.or_eq_true, Bool.and_eq_true, beq_iff_eq]
  exact h

theorem crossHeadFilter {n : Nat} {c1 c2 : String} {b1 b2 : List Int}
    (hne : c1 ≠ c2) :
    ∀ {rest : List (String × List Int)},
      rest.Pairwise (fun p q => p.1 ≠ q.1) → (c2, b2) ∈ rest →
      flatMapL (fun q => (crossBlock n ((c1, b1), q)).filter (isInterOn c1 c2)) rest
        = crossBlock n ((c1, b1), (c2, b2)) := by
  intro rest
  induction rest with
  | nil => intro _ hmem; simp at hmem
  | cons q qs ih =>
    intro hpw hmem
    rcases List.pairwise_cons.mp hpw with ⟨hhd, htl⟩
    show (crossBlock n ((c1, b1), q)).filter (isInterOn c1 c2) ++ _ = _
    rcases List.mem_cons.mp hmem with heq | hmem'
    · rw [← heq]
      rw [@crossBlock_filter_hit n c1 c2 ((c1, b1), (c2, b2)) rfl rfl]
      have hqs : flatMapL
          (fun x => (crossBlock n ((c1, b1), x)).filter (isInterOn c1 c2)) qs = [] := by
        refine flatMapL_eq_nil ?_
        intro x hx
        refine crossBlock_filter_miss ?_
        rintro (⟨_, hb⟩ | ⟨ha, _⟩)
        · have : q.1 = c2 := by rw [← heq]
          exact (hhd x hx) (by rw [this, hb])
        · exact hne ha
      rw [hqs, List.append_nil]
    · have hq1 : q.1 ≠ c2 := hhd (c2, b2) hmem'
      have hmiss : (crossBlock n ((c1, b1), q)).filter (isInterOn c1 c2) = [] := by
        refine crossBlock_filter_miss ?_
        rintro (⟨_, hb⟩ | ⟨ha, _⟩)
        · exact hq1 hb
        · exact hne ha
      rw [hmiss, List.nil_append]
      exact ih htl hmem'

theorem combTailFilter {n : Nat} {c1 c2 : String} :
    ∀ {rest : List (String × List Int)}, (∀ q ∈ rest, q.1 ≠ c1) →
      (flatMapL (crossBlock n) (combinations2 rest)).filter (isInterOn c1 c2) = [] := by
  intro rest hkeys
  rw [filter_flatMapL]
  refine flatMapL_eq_nil ?_
  intro pq hpq
  rcases mem_combinations2 hpq with ⟨hp1, hp2⟩
  refine crossBlock_filter_miss ?_
  rintro (⟨ha, _⟩ | ⟨_, hb⟩)
  · exact hkeys pq.1 hp1 ha
  · exact hkeys pq.2 hp2 hb

theorem interPairs_filter {n : Nat} {c1 c2 : String} {b1 b2 : List Int}
    (hne : c1 ≠ c2) :
    ∀ {bins : List (String × List Int)},
      bins.Pairwise (fun p q => p.1 ≠ q.1) →
      (c1, b1) ∈ bins → (c2, b2) ∈ bins →
      (flatMapL (crossBlock n) (combinations2 bins)).filter (isInterOn c1 c2)
          = crossBlock n ((c1, b1), (c2, b2)) ∨
        (flatMapL (crossBlock n) (combinations2 bins)).filter (isInterOn c1 c2)
          = crossBlock n ((c2, b2), (c1, b1)) := by
  intro bins
  induction bins with
  | nil => intro _ hmem _; simp at hmem
  | cons e rest ih =>
    intro hpw hmem1 hmem2
    rcases List.pairwise_cons.mp hpw with ⟨hhd, htl⟩
    have hsplit :
        (flatMapL (crossBlock n) (combinations2 (e :: rest))).filter (isInterOn c1 c2)
          = flatMapL (fun q => (crossBlock n (e, q)).filter (isInterOn c1 c2)) rest
            ++ (flatMapL (crossBlock n) (combinations2 rest)).filter (isInterOn c1 c2) := by
      show (flatMapL (crossBlock n) (rest.map (fun y => (e, y)) ++ combinations2 rest)).filter
          (isInterOn c1 c2) = _
      rw [flatMapL_append, List.filter_append, flatMapL_map, filter_flatMapL]
    rw [hsplit]
    rcases List.mem_cons.mp hmem1 with heq1 | hmem1'
    · have hmem2' : (c2, b2) ∈ rest := by
        rcases List.mem_cons.mp hmem2 with heq2 | h
        · exact absurd (congrArg Prod.fst (heq2.trans heq1.symm)) (Ne.symm hne)
        · exact h
      have hc1keys : ∀ q ∈ rest, q.1 ≠ c1 := by
        intro q hq hc
        exact (hhd q hq) (by rw [← heq1, hc])
      rw [combTailFilter hc1keys, List.append_nil, ← heq1]
      exact Or.inl (crossHeadFilter hne htl hmem2')
    · rcases List.mem_cons.mp hmem2 with heq2 | hmem2'
      · have hc2keys : ∀ q ∈ rest, q.1 ≠ c2 := by
          intro q hq hc
          exact (hhd q hq) (by rw [← heq2, hc])
        have hcomm : ∀ l : List ContactCall,
            l.filter (isInterOn c1 c2) = l.filter (isInterOn c2 c1) :=
          fun l => List.filter_congr fun c _ => isInterOn_comm c1 c2 c
        have htail :
            (flatMapL (crossBlock n) (combinations2 rest)).filter (isInterOn c1 c2) = [] := by
          rw [hcomm]
          exact combTailFilter hc2keys
        have hhead :
            flatMapL (fun q => (crossBlock n (e, q)).filter (isInterOn c1 c2)) rest
              = crossBlock n ((c2, b2), (c1, b1)) := by
          have hrw : ∀ q : String × List Int,
              (crossBlock n (e, q)).filter (isInterOn c1 c2)
                = (crossBlock n ((c2, b2), q)).filter (isInterOn c2 c1) := by
            intro q
            rw [← heq2, hcomm]
          calc flatMapL (fun q => (crossBlock n (e, q)).filter (isInterOn c1 c2)) rest
              = flatMapL (fun q => (crossBlock n ((c2, b2), q)).filter (isInterOn c2 c1)) rest := by
                exact congrArg (fun f => flatMapL f rest) (funext hrw)
            _ = crossBlock n ((c2, b2), (c1, b1)) := crossHeadFilter hne.symm htl hmem1'
        rw [htail, List.append_nil, hhead]
        exact Or.inr rfl
      · have he1 : e.1 ≠ c1 := hhd (c1, b1) hmem1'
        have he2 : e.1 ≠ c2 := hhd (c2, b2) hmem2'
        have hhead :
            flatMapL (fun q => (crossBlock n (e, q)).filter (isInterOn c1 c2)) rest = [] := by
          refine flatMapL_eq_nil ?_
          intro q hq
          refine crossBlock_filter_miss ?_
          rintro (⟨ha, _⟩ | ⟨hb, _⟩)
          · exact he1 ha
          · exact he2 hb
        rw [hhead, List.nil_append]
        exact ih htl hmem1' hmem2'

/-! ### Relational-sink row counting -/

theorem parseReads_rows_length {so : Bool} {cid : String} :
    ∀ {reads : List String} {bins bins' : List (String × List Int)}
      {rows rows' : List DbRow},
      parseReads so cid reads bins rows = .ok (bins', rows') →
      rows'.length = rows.length + reads.length := by
  intro reads
  induction reads with
  | nil =>
    intro bins bins' rows rows' h
    simp only [parseReads, Except.ok.injEq, Prod.mk.injEq] at h
    rw [← h.2]
    simp
  | cons r rs ih =>
    intro bins bins' rows rows' h
    simp only [parseReads] at h
    split at h
    · split at h
      · exact absurd h (by simp)
      · have h2 := ih h
        rw [h2]
        simp only [List.length_append, List.length_cons, List.length_nil]
        omega
    · split at h
      · exact absurd h (by simp)
      · have h2 := ih h
        rw [h2]
        simp only [List.length_append, List.length_cons, List.length_nil]
        omega

theorem processLine_rows {cfg : Config} {st st' : RunState} {line : String}
    (h : processLine cfg st line = .ok st') :
    st'.dbRows.length = st.dbRows.length + lineEligibleCount cfg line := by
  unfold processLine at h
  split at h
  · exact absurd h (by simp)
  · rename_i cid reads hsplit
    split at h
    · rename_i hsz
      cases h
      simp only [lineEligibleCount, hsplit, List.length_cons, Nat.add_sub_cancel]
      rw [if_neg (by exact fun hc => hsz hc)]
      simp
    · rename_i hsz
      rw [not_not] at hsz
      split at h
      · exact absurd h (by simp)
      · rename_i br hpr
        cases h
        simp only [List.length_append]
        have hrows := parseReads_rows_length hpr
        simp only [List.length_nil, Nat.zero_add] at hrows
        simp only [lineEligibleCount, hsplit, List.length_cons, Nat.add_sub_cancel]
        rw [if_pos hsz, hrows]

theorem processLines_rows {cfg : Config} :
    ∀ {lines : List String} {st st' : RunState},
      processLines cfg st lines = .ok st' →
      st'.dbRows.length = st.dbRows.length + eligibleReadTokens cfg lines := by
  intro lines
  induction lines with
  | nil =>
    intro st st' h
    cases h
    simp [eligibleReadTokens]
  | cons l ls ih =>
    intro st st' h
    unfold processLines at h
    split at h
    · exact absurd h (by simp)
    · rename_i st₁ hl
      have h1 := processLine_rows hl
      have h2 := ih h
      simp only [eligibleReadTokens, List.map_cons, List.sum_cons] at h2 ⊢
      omega

/-! ### Abort on a malformed read token -/

theorem readParses_false_iff (t : String) :
    readParses false t = false ↔ ∃ e, parseReadFull t = .error e := by
  rcases hp : parseReadFull t with e | res <;> simp [readParses, hp]

theorem readParses_true_iff (t : String) :
    readParses true t = false ↔ ∃ e, parseReadStart t = .error e := by
  rcases hp : parseReadStart t with e | res <;> simp [readParses, hp]

theorem parseReads_error {so : Bool} {cid t : String}
    (hfail : readParses so t = false) :
    ∀ {reads : List String} {bins : List (String × List Int)} {rows : List DbRow},
      t ∈ reads → ∃ e, parseReads so cid reads bins rows = .error e := by
  intro reads
  induction reads with
  | nil => intro _ _ hm; simp at hm
  | cons r rs ih =>
    intro bins rows hm
    rcases List.mem_cons.mp hm with rfl | hm'
    · cases so
      · obtain ⟨e, he⟩ := (readParses_false_iff t).mp hfail
        exact ⟨e, by simp [parseReads, he]⟩
      · obtain ⟨e, he⟩ := (readParses_true_iff t).mp hfail
        exact ⟨e, by simp [parseReads, he]⟩
    · cases so
      · rcases hp : parseReadFull r with e' | res
        · exact ⟨e', by simp [parseReads, hp]⟩
        · obtain ⟨e, he⟩ := @ih (binsAdd bins res.1 res.2.1)
            (rows ++ [DbRow.full res.1 res.2.2.1 res.2.2.2 cid]) hm'
          exact ⟨e, by simp [parseReads, hp, he]⟩
      · rcases hp : parseReadStart r with e' | res
        · exact ⟨e', by simp [parseReads, hp]⟩
        · obtain ⟨e, he⟩ := @ih (binsAdd bins res.1 res.2.1)
            (rows ++ [DbRow.startOnly res.1 res.2.2 cid]) hm'
          exact ⟨e, by simp [parseReads, hp, he]⟩

theorem processLine_error {cfg : Config} {line cid t : String}
    {reads : List String} (hsplit : pySplit line = cid :: reads)
    (hmin : cfg.minClusterSize ≤ (reads.length : Int))
    (hmax : (reads.length : Int) ≤ cfg.maxClusterSize)
    (hm : t ∈ reads) (hfail : readParses cfg.startOnly t = false)
    (st : RunState) : ∃ e, processLine cfg st line = .error e := by
  obtain ⟨e, he⟩ := @parseReads_error cfg.startOnly cid t hfail reads [] [] hm
  refine ⟨e, ?_⟩
  unfold processLine
  rw [hsplit]
  show (if ¬(cfg.minClusterSize ≤ (reads.length : Int) ∧
      (reads.length : Int) ≤ cfg.maxClusterSize) then Except.ok st else _) = _
  rw [if_neg (not_not_intro ⟨hmin, hmax⟩), he]

theorem processLines_error {cfg : Config} {line : String}
    (hline : ∀ st, ∃ e, processLine cfg st line = .error e) :
    ∀ {lines : List String}, line ∈ lines →
      ∀ st, ∃ e, processLines cfg st lines = .error e := by
  intro lines
  induction lines with
  | nil => intro hm; simp at hm
  | cons l ls ih =>
    intro hm st
    rcases List.mem_cons.mp hm with rfl | hm'
    · obtain ⟨e, he⟩ := hline st
      exact ⟨e, by simp [processLines, he]⟩
    · rcases hl : processLine cfg st l with e | st'
      · exact ⟨e, by simp [processLines, hl]⟩
      · obtain ⟨e, he⟩ := ih hm' st'
        exact ⟨e, by simp [processLines, hl, he]⟩

/-! ### Which tokens fail to parse -/

theorem rsplitOnce_eq_none {c : Char} :
    ∀ {l : List Char}, c ∉ l → rsplitOnce c l = none := by
  intro l
  induction l with
  | nil => intro _; rfl
  | cons x xs ih =>
    intro h
    have hx : x ≠ c := fun he => h (he ▸ List.mem_cons_self x xs)
    have hxs : c ∉ xs := fun he => h (List.mem_cons_of_mem x he)
    simp [rsplitOnce, ih hxs, hx]

theorem splitCharList_of_not_mem {c : Char} :
    ∀ {l : List Char}, c ∉ l → splitCharList c l = [l] := by
  intro l
  induction l with
  | nil => intro _; rfl
  | cons x xs ih =>
    intro h
    have hx : x ≠ c := fun he => h (he ▸ List.mem_cons_self x xs)
    have hxs : c ∉ xs := fun he => h (List.mem_cons_of_mem x he)
    simp [splitCharList, hx, ih hxs]

theorem splitExact2_of_not_mem {c : Char} {l : List Char} (h : c ∉ l) :
    splitExact2 c l = none := by
  unfold splitExact2
  rw [splitCharList_of_not_mem h]

theorem splitOnceL_eq_none {c : Char} :
    ∀ {l : List Char}, c ∉ l → splitOnceL c l = none := by
  intro l
  induction l with
  | nil => intro _; rfl
  | cons x xs ih =>
    intro h
    have hx : x ≠ c := fun he => h (he ▸ List.mem_cons_self x xs)
    have hxs : c ∉ xs := fun he => h (List.mem_cons_of_mem x he)
    simp [splitOnceL, hx, ih hxs]

theorem intraCalls_filter_inter {n : Nat} {c1 c2 : String} (hne : c1 ≠ c2)
    (bins : List (String × List Int)) :
    (intraCalls bins n).filter (isInterOn c1 c2) = [] := by
  rw [intraCalls, filter_flatMapL]
  refine flatMapL_eq_nil ?_
  intro cb hcb
  refine List.filter_eq_nil_iff.mpr ?_
  intro c hc
  rcases mem_intraBlock hc with ⟨h1, h2, _, _⟩
  simp only [isInterOn, h1, h2, Bool.or_eq_true, Bool.and_eq_true, beq_iff_eq]
  rintro (⟨ha, hb⟩ | ⟨ha, hb⟩)
  · exact hne (ha.symm.trans hb)
  · exact hne (hb.symm.trans ha)

theorem two_mem_length {α : Type u} {x y : α} (hne : x ≠ y) :
    ∀ {l : List α}, x ∈ l → y ∈ l → 1 < l.length := by
  intro l
  cases l with
  | nil => intro hx _; simp at hx
  | cons a as =>
    cases as with
    | nil =>
      intro hx hy
      rw [List.mem_singleton] at hx hy
      exact absurd (hx.trans hy.symm) hne
    | cons b bs => intro _ _; simp

theorem goodLine_data_ne {line : String} (h : GoodLine line) : line.data ≠ [] := by
  obtain ⟨x, y, w, rfl⟩ := h
  intro hd
  simp only [String.data_append] at hd
  rcases List.append_eq_nil.mp hd with ⟨h1, _⟩
  rcases List.append_eq_nil.mp h1 with ⟨_, h3⟩
  exact List.cons_ne_nil ',' [] h3

theorem joinLines_ne_empty {l : String} {ls : List String} (h : l.data ≠ []) :
    joinLines (l :: ls) ≠ "" := by
  cases ls with
  | nil =>
    intro he
    exact h (by rw [show l = "" from he])
  | cons l2 ls2 =>
    intro he
    have hd := congrArg String.data he
    simp only [joinLines, String.data_append] at hd
    rcases List.append_eq_nil.mp hd with ⟨h1, _⟩
    rcases List.append_eq_nil.mp h1 with ⟨h2, _⟩
    exact h h2

/-! ### Claim theorems -/

/-- C1 (counterexample): the claim says the relational row count equals the
total number of read tokens across all clusters independently of the
cluster-size filter. On a full-mode run over one cluster with a single read
and `min_cluster_size = 2`, the code skips the cluster before any `INSERT`,
so 0 rows are written although the file holds 1 read token. -/
theorem c1_counterexample :
    dbRowCount (generate_hsv cfgA linesA) ≠ some (totalReadTokens linesA) ∧
    dbRowCount (generate_hsv cfgA linesA) = some 0 ∧
    totalReadTokens linesA = 1 := by
  refine ⟨?_, rfl, rfl⟩
  intro h
  rw [show dbRowCount (generate_hsv cfgA linesA) = some 0 from rfl,
    show totalReadTokens linesA = 1 from rfl] at h
  simp at h

/-- C1 (amended): in a completed full-mode run, the relational row count
equals the total number of read tokens of the clusters that pass the
size-bound filter; clusters outside `[min_cluster_size, max_cluster_size]`
are skipped before any `INSERT` and contribute no rows. -/
theorem c1_rows_eq_eligible (cfg : Config) (lines : List String)
    (st : RunState) (_hfull : cfg.startOnly = false)
    (hrun : generate_hsv cfg lines = .ok st) :
    st.dbRows.length = eligibleReadTokens cfg lines := by
  have h := processLines_rows
    (show processLines cfg { store := [], dbRows := [] } lines = .ok st from hrun)
  simpa using h

/-- C1 (witness): the amended claim at the two-cluster fixture, where the
second cluster is undersized and contributes no rows. -/
theorem c1_rows_eq_eligible_witness :
    stB.dbRows.length = eligibleReadTokens cfgB linesB :=
  c1_rows_eq_eligible cfgB linesB stB rfl rfl

/-- C2: for a size-eligible cluster and a chromosome whose bin holds
`k ≥ 2` unique start positions, exactly `k*(k-1)/2` intrachromosomal
contacts are emitted for that chromosome, each carrying weight `k`. -/
theorem c2_intra_count (cfg : Config) (cid : String) (reads : List String)
    (bins : List (String × List Int)) (rows : List DbRow) (chrom : String)
    (b : List Int)
    (_hsize : cfg.minClusterSize ≤ (reads.length : Int) ∧
      (reads.length : Int) ≤ cfg.maxClusterSize)
    (hparse : parseReads cfg.startOnly cid reads [] [] = .ok (bins, rows))
    (hmem : (chrom, b) ∈ bins) (hk : 2 ≤ b.length) :
    ((intraCalls bins reads.length ++ interCalls bins reads.length).filter
        (isIntraOn chrom)).length = b.length * (b.length - 1) / 2 ∧
    ∀ c ∈ (intraCalls bins reads.length ++ interCalls bins reads.length).filter
        (isIntraOn chrom), c.inc2 = (b.length : Int) := by
  have hwf := parseReads_wf hparse ⟨List.Pairwise.nil, by simp⟩
  have hfilter : (intraCalls bins reads.length ++
      interCalls bins reads.length).filter (isIntraOn chrom)
        = intraBlock reads.length (chrom, b) := by
    rw [List.filter_append, intraCalls_filter hwf.1 hmem,
      interCalls_filter_intra hwf.1, List.append_nil]
  constructor
  · rw [hfilter]
    unfold intraBlock
    rw [if_pos (by exact hk)]
    rw [List.length_map, length_combinations2, Nat.choose_two_right]
  · intro c hc
    rw [hfilter] at hc
    exact (mem_intraBlock hc).2.2.1

/-- C2 (witness): the spec's end-to-end cluster; `chr1` has two unique
positions, yielding one intrachromosomal contact of weight 2. -/
theorem c2_intra_count_witness :
    ((intraCalls binsB readsB.length ++ interCalls binsB readsB.length).filter
        (isIntraOn "chr1")).length
      = ([10, 30] : List Int).length * (([10, 30] : List Int).length - 1) / 2 ∧
    ∀ c ∈ (intraCalls binsB readsB.length ++
        interCalls binsB readsB.length).filter (isIntraOn "chr1"),
      c.inc2 = ((([10, 30] : List Int).length : Int)) :=
  c2_intra_count cfgB "c1" readsB binsB rowsB "chr1" [10, 30]
    (by decide) rfl (by decide) (by decide)

/-- C3: for a size-eligible cluster and an unordered pair of distinct
chromosomes with `m` and `n` unique positions, exactly `m*n`
interchromosomal contacts are emitted between them, each with weight
`m + n`. -/
theorem c3_inter_count (cfg : Config) (cid : String) (reads : List String)
    (bins : List (String × List Int)) (rows : List DbRow) (c1 c2 : String)
    (b1 b2 : List Int)
    (_hsize : cfg.minClusterSize ≤ (reads.length : Int) ∧
      (reads.length : Int) ≤ cfg.maxClusterSize)
    (hparse : parseReads cfg.startOnly cid reads [] [] = .ok (bins, rows))
    (hmem1 : (c1, b1) ∈ bins) (hmem2 : (c2, b2) ∈ bins) (hne : c1 ≠ c2) :
    ((intraCalls bins reads.length ++ interCalls bins reads.length).filter
        (isInterOn c1 c2)).length = b1.length * b2.length ∧
    ∀ c ∈ (intraCalls bins reads.length ++ interCalls bins reads.length).filter
        (isInterOn c1 c2),
      c.inc2 = ((b1.length + b2.length : Nat) : Int) := by
  have hwf := parseReads_wf hparse ⟨List.Pairwise.nil, by simp⟩
  have hguard : bins.length > 1 :=
    two_mem_length (fun h => hne (congrArg Prod.fst h)) hmem1 hmem2
  have hinter : interCalls bins reads.length
      = flatMapL (crossBlock reads.length) (combinations2 bins) := by
    unfold interCalls
    rw [if_pos hguard]
  have hsplit : (intraCalls bins reads.length ++
      interCalls bins reads.length).filter (isInterOn c1 c2)
        = (flatMapL (crossBlock reads.length) (combinations2 bins)).filter
            (isInterOn c1 c2) := by
    rw [List.filter_append, intraCalls_filter_inter hne, List.nil_append, hinter]
  rcases interPairs_filter hne hwf.1 hmem1 hmem2 with h | h
  · rw [hsplit, h]
    constructor
    · exact crossBlock_length reads.length ((c1, b1), (c2, b2))
    · intro c hc
      exact (mem_crossBlock hc).2.2.1
  · rw [hsplit, h]
    constructor
    · rw [crossBlock_length reads.length ((c2, b2), (c1, b1))]
      exact Nat.mul_comm _ _
    · intro c hc
      have := (mem_crossBlock hc).2.2.1
      rw [this]
      norm_cast
      exact Nat.add_comm _ _

/-- C3 (witness): the spec's end-to-end cluster; `chr1 × chr2` with 2 and 1
unique positions yields two interchromosomal contacts of weight 3. -/
theorem c3_inter_count_witness :
    ((intraCalls binsB readsB.length ++ interCalls binsB readsB.length).filter
        (isInterOn "chr1" "chr2")).length
      = ([10, 30] : List Int).length * ([5] : List Int).length ∧
    ∀ c ∈ (intraCalls binsB readsB.length ++
        interCalls binsB readsB.length).filter (isInterOn "chr1" "chr2"),
      c.inc2 = (((([10, 30] : List Int).length + ([5] : List Int).length : Nat)) : Int) :=
  c3_inter_count cfgB "c1" readsB binsB rowsB "chr1" "chr2" [10, 30] [5]
    (by decide) rfl (by decide) (by decide) (by decide)

/-- C4: a cluster whose read count is strictly below `min_cluster_size` or
strictly above `max_cluster_size` leaves the run state untouched: no
contact lines and no rows are contributed, with no partial emission. -/
theorem c4_out_of_bounds_skipped (cfg : Config) (st : RunState)
    (line cid : String) (reads : List String)
    (hsplit : pySplit line = cid :: reads)
    (hout : (reads.length : Int) < cfg.minClusterSize ∨
      cfg.maxClusterSize < (reads.length : Int)) :
    processLine cfg st line = .ok st := by
  unfold processLine
  rw [hsplit]
  show (if ¬(cfg.minClusterSize ≤ (reads.length : Int) ∧
      (reads.length : Int) ≤ cfg.maxClusterSize) then Except.ok st else _) = _
  rw [if_pos (by rintro ⟨h1, h2⟩; rcases hout with h | h <;> omega)]

/-- C4 (witness): the undersized single-read cluster is skipped whole. -/
theorem c4_out_of_bounds_skipped_witness :
    processLine cfgA { store := [], dbRows := [] } "c1 r_chr1:1-2"
      = .ok { store := [], dbRows := [] } :=
  c4_out_of_bounds_skipped cfgA { store := [], dbRows := [] } "c1 r_chr1:1-2"
    "c1" ["r_chr1:1-2"] rfl (Or.inl (by decide))

/-- C5 (counterexample): the claim quantifies over all chromosomes `A`, `B`
in the valid set, including `A = B`. For `A = B = "chr1"` with positions
1 and 2, adding `(A,1,B,2)` and adding `(B,2,A,1)` append different lines
(`"1,2,7"` versus `"2,1,7"`) under the same key, so the claimed symmetry
fails on same-chromosome contacts. -/
theorem c5_counterexample :
    add_contact_to_list ["chr1"] [] "c" "chr1" 1 "chr1" 2 7 7 ≠
      add_contact_to_list ["chr1"] [] "c" "chr1" 2 "chr1" 1 7 7 ∧
    add_contact_to_list ["chr1"] [] "c" "chr1" 1 "chr1" 2 7 7
      = [("chr1-chr1", ["1,2,7"])] ∧
    add_contact_to_list ["chr1"] [] "c" "chr1" 2 "chr1" 1 7 7
      = [("chr1-chr1", ["2,1,7"])] ∧
    "chr1" ∈ ["chr1"] := by
  refine ⟨?_, rfl, rfl, by decide⟩
  decide

/-- C5 (amended): for two DISTINCT valid chromosomes, adding `(A,s1,B,s2)`
and adding `(B,s2,A,s1)` with the same weight produce the identical store
(identical line under the identical canonical key); and every key of the
store of a completed run is `a ++ "-" ++ b` with `a ≤ b` lexicographically.
For `A = B`, the pair key is the same but the two position orders are kept
as encountered. -/
theorem c5_canonical :
    (∀ (cl : List String) (store : List (String × List String))
        (cid A : String) (s1 : Int) (B : String) (s2 i1 i2 : Int),
        A ∈ cl → B ∈ cl → A ≠ B →
        add_contact_to_list cl store cid A s1 B s2 i1 i2 =
          add_contact_to_list cl store cid B s2 A s1 i1 i2) ∧
    (∀ (cfg : Config) (lines : List String) (st : RunState),
        generate_hsv cfg lines = .ok st →
        ∀ kl ∈ st.store, ∃ a b : String,
          pyStrLt b a = false ∧ kl.1 = a ++ "-" ++ b) := by
  constructor
  · intro cl store cid A s1 B s2 i1 i2 hA hB hAB
    have hv1 : ¬(A ∉ cl ∨ B ∉ cl) := by push_neg; exact ⟨hA, hB⟩
    have hv2 : ¬(B ∉ cl ∨ A ∉ cl) := by push_neg; exact ⟨hB, hA⟩
    rcases pyStrLt_connex hAB with h | h
    · simp [add_contact_to_list, hv1, hv2, h, pyStrLt_asymm h]
    · simp [add_contact_to_list, hv1, hv2, h, pyStrLt_asymm h]
  · intro cfg lines st hrun kl hkl
    obtain ⟨⟨a, b, _, _, hord, heq⟩, _, _⟩ := run_store_good hrun kl hkl
    exact ⟨a, b, hord, heq⟩

/-- C5 (witness): the amended symmetry at distinct chromosomes, and the
canonical key order of the fixture run's store. -/
theorem c5_canonical_witness :
    add_contact_to_list ["chr1", "chr2"] [] "c" "chr1" 1 "chr2" 2 3 3 =
      add_contact_to_list ["chr1", "chr2"] [] "c" "chr2" 2 "chr1" 1 3 3 ∧
    (∃ a b : String, pyStrLt b a = false ∧
      ("chr1-chr2" : String) = a ++ "-" ++ b) :=
  ⟨c5_canonical.1 ["chr1", "chr2"] [] "c" "chr1" 1 "chr2" 2 3 3
      (by decide) (by decide) (by decide),
   c5_canonical.2 cfgB linesB stB rfl ("chr1-chr2", ["10,5,3", "30,5,3"])
     (by decide)⟩

/-- C6: a contact naming an unrecognized chromosome is silently dropped —
`add_contact_to_list` returns the store unchanged and raises nothing — and
consequently every key of the final store and every written file name is
built from two recognized chromosomes. -/
theorem c6_unrecognized_dropped :
    (∀ (cl : List String) (store : List (String × List String))
        (cid c1 : String) (s1 : Int) (c2 : String) (s2 i1 i2 : Int),
        (c1 ∉ cl ∨ c2 ∉ cl) →
        add_contact_to_list cl store cid c1 s1 c2 s2 i1 i2 = store) ∧
    (∀ (cfg : Config) (lines : List String) (st : RunState),
        generate_hsv cfg lines = .ok st →
        ∀ kl ∈ st.store, ∃ a b : String, a ∈ cfg.chromosomeList ∧
          b ∈ cfg.chromosomeList ∧ kl.1 = a ++ "-" ++ b) ∧
    (∀ (cfg : Config) (lines : List String) (fc : String × String),
        fc ∈ contactFiles (generate_hsv cfg lines) →
        ∃ a b : String, a ∈ cfg.chromosomeList ∧ b ∈ cfg.chromosomeList ∧
          fc.1 = a ++ "-" ++ b ++ ".txt") := by
  refine ⟨?_, ?_, ?_⟩
  · intro cl store cid c1 s1 c2 s2 i1 i2 h
    unfold add_contact_to_list
    rw [if_pos h]
  · intro cfg lines st hrun kl hkl
    obtain ⟨⟨a, b, ha, hb, _, heq⟩, _, _⟩ := run_store_good hrun kl hkl
    exact ⟨a, b, ha, hb, heq⟩
  · intro cfg lines fc hfc
    rcases hrun : generate_hsv cfg lines with e | st
    · rw [hrun] at hfc
      simp [contactFiles] at hfc
    · rw [hrun] at hfc
      simp only [contactFiles] at hfc
      rcases List.mem_map.mp hfc with ⟨kl, hkl, rfl⟩
      obtain ⟨⟨a, b, ha, hb, _, heq⟩, _, _⟩ := run_store_good hrun kl hkl
      exact ⟨a, b, ha, hb, by rw [heq]⟩

/-- C6 (witness): a contact on the unknown chromosome `chrX` leaves the
empty store empty, and the fixture store's first key splits into two
recognized chromosomes. -/
theorem c6_unrecognized_dropped_witness :
    add_contact_to_list ["chr1"] [] "c" "chrX" 1 "chr1" 2 3 3 = [] ∧
    (∃ a b : String, a ∈ cfgB.chromosomeList ∧ b ∈ cfgB.chromosomeList ∧
      ("chr1-chr1" : String) = a ++ "-" ++ b) :=
  ⟨c6_unrecognized_dropped.1 ["chr1"] [] "c" "chrX" 1 "chr1" 2 3 3
      (Or.inl (by decide)),
   c6_unrecognized_dropped.2.1 cfgB linesB stB rfl
     ("chr1-chr1", ["10,30,2"]) (by decide)⟩

/-- C7: duplicate start positions collapse by set semantics — every bin of
a parsed cluster is duplicate-free; a cluster of two reads at the identical
`chrom:start` produces zero contacts (its run state keeps an empty store
while both raw rows are recorded); and no emitted intrachromosomal contact
pairs a position with itself. -/
theorem c7_dedup :
    (∀ (so : Bool) (cid : String) (reads : List String)
        (bins : List (String × List Int)) (rows : List DbRow),
        parseReads so cid reads [] [] = .ok (bins, rows) →
        ∀ cb ∈ bins, cb.2.Nodup) ∧
    generate_hsv cfgA linesD =
      .ok { store := [],
            dbRows := [.full "chr1" "5" "10" "c1", .full "chr1" "5" "10" "c1"] } ∧
    (∀ (so : Bool) (cid : String) (reads : List String)
        (bins : List (String × List Int)) (rows : List DbRow) (n : Nat),
        parseReads so cid reads [] [] = .ok (bins, rows) →
        ∀ c ∈ intraCalls bins n, c.start1 ≠ c.start2) := by
  refine ⟨?_, rfl, ?_⟩
  · intro so cid reads bins rows hparse
    exact (parseReads_wf hparse ⟨List.Pairwise.nil, by simp⟩).2
  · intro so cid reads bins rows n hparse c hc
    have hwf := parseReads_wf hparse ⟨List.Pairwise.nil, by simp⟩
    rcases mem_flatMapL.mp hc with ⟨cb, hcb, hcall⟩
    rcases mem_intraBlock hcall with ⟨_, _, _, p, hp, rfl⟩
    exact combinations2_pairwise (hwf.2 cb hcb) p hp

/-- C7 (witness): the duplicated-read bin is duplicate-free, and the single
intrachromosomal contact of the fixture cluster pairs distinct positions. -/
theorem c7_dedup_witness :
    ([5] : List Int).Nodup ∧ (10 : Int) ≠ 30 :=
  ⟨c7_dedup.1 false "c1" ["r_chr1:5-10", "r_chr1:5-10"] [("chr1", [5])]
      [.full "chr1" "5" "10" "c1", .full "chr1" "5" "10" "c1"] rfl
      ("chr1", [5]) (by decide),
   c7_dedup.2.2 false "c1" readsB binsB rowsB 3 rfl
     ⟨"chr1", 10, "chr1", 30, 3, 2⟩ (by decide)⟩

/-- C8: loading the genomic size registry fails exactly when the reference
file is missing, is not parseable, or lacks a top-level `"chromosomes"`
mapping; and such a failure aborts `main` before anything is produced, so
the run yields no output at all. -/
theorem c8_config_error :
    (∀ f : RefFile, (∃ e, loadRegistry f = .error e) ↔
        (f = .missing ∨ f = .unparseable ∨
          ∃ v, f = .parsed v ∧ chromosomesMapping v = none)) ∧
    (∀ (ref : RefFile) (minS maxS : Int) (so : Bool) (lines : List String)
        (e : ConfigError), loadRegistry ref = .error e →
        runMain ref minS maxS so lines = .error (.config e)) := by
  constructor
  · intro f
    cases f with
    | missing =>
      exact ⟨fun _ => Or.inl rfl, fun _ => ⟨.fileMissing, rfl⟩⟩
    | unparseable =>
      exact ⟨fun _ => Or.inr (Or.inl rfl), fun _ => ⟨.malformed, rfl⟩⟩
    | parsed v =>
      rcases hm : chromosomesMapping v with _ | chr
      · constructor
        · intro _
          exact Or.inr (Or.inr ⟨v, rfl, hm⟩)
        · intro _
          exact ⟨.noChromosomesKey, by simp [loadRegistry, hm]⟩
      · constructor
        · rintro ⟨e, he⟩
          simp [loadRegistry, hm] at he
        · rintro (h | h | ⟨w, hw, hmap⟩)
          · exact absurd h (by simp)
          · exact absurd h (by simp)
          · rw [show v = w from by injection hw] at hm
            rw [hm] at hmap
            simp at hmap
  · intro ref minS maxS so lines e he
    unfold runMain
    rw [he]

/-- C8 (witness): a missing reference file is a load failure, and the whole
run then errors out with the configuration error. -/
theorem c8_config_error_witness :
    (∃ e, loadRegistry .missing = .error e) ∧
    runMain .missing 2 1000 false ["c1 r_chr1:1-2"]
      = .error (.config .fileMissing) :=
  ⟨(c8_config_error.1 .missing).mpr (Or.inl rfl),
   c8_config_error.2 .missing 2 1000 false ["c1 r_chr1:1-2"] .fileMissing rfl⟩

/-- C9: each malformed-token shape named by the claim makes the read parse
raise (full mode: no underscore, no `:` in the coordinate, no `-` in the
position, non-integer start; start-only mode: no `:`, non-integer start); a
failing parse is exactly a failing `readParses`; and any failing token
inside a size-eligible cluster aborts the whole run before
`write_contact_files`, so no per-pair contact file is written at all. -/
theorem c9_malformed_abort :
    (∀ t : String, '_' ∉ t.data → parseReadFull t = .error .valueError) ∧
    (∀ (t : String) (pc : List Char × List Char),
        rsplitOnce '_' t.data = some pc → ':' ∉ pc.2 →
        parseReadFull t = .error .valueError) ∧
    (∀ (t : String) (pc cp : List Char × List Char),
        rsplitOnce '_' t.data = some pc → splitExact2 ':' pc.2 = some cp →
        '-' ∉ cp.2 → parseReadFull t = .error .valueError) ∧
    (∀ (t : String) (pc cp se : List Char × List Char),
        rsplitOnce '_' t.data = some pc → splitExact2 ':' pc.2 = some cp →
        splitExact2 '-' cp.2 = some se → pyInt se.1 = none →
        parseReadFull t = .error .valueError) ∧
    (∀ t : String, ':' ∉ t.data → parseReadStart t = .error .valueError) ∧
    (∀ (t : String) (cs : List Char × List Char),
        splitOnceL ':' t.data = some cs → pyInt cs.2 = none →
        parseReadStart t = .error .valueError) ∧
    (∀ (t : String) (e : RunError),
        parseReadFull t = .error e → readParses false t = false) ∧
    (∀ (t : String) (e : RunError),
        parseReadStart t = .error e → readParses true t = false) ∧
    (∀ (cfg : Config) (lines : List String) (line cid t : String)
        (reads : List String), line ∈ lines → pySplit line = cid :: reads →
        cfg.minClusterSize ≤ (reads.length : Int) →
        (reads.length : Int) ≤ cfg.maxClusterSize →
        t ∈ reads → readParses cfg.startOnly t = false →
        (∃ e, generate_hsv cfg lines = .error e) ∧
          contactFiles (generate_hsv cfg lines) = []) := by
  refine ⟨?_, ?_, ?_, ?_, ?_, ?_, ?_, ?_, ?_⟩
  · intro t h
    simp [parseReadFull, rsplitOnce_eq_none h]
  · intro t pc hsp h
    simp [parseReadFull, hsp, splitExact2_of_not_mem h]
  · intro t pc cp hsp hcol h
    simp [parseReadFull, hsp, hcol, splitExact2_of_not_mem h]
  · intro t pc cp se hsp hcol hdash h
    simp [parseReadFull, hsp, hcol, hdash, h]
  · intro t h
    simp [parseReadStart, splitOnceL_eq_none h]
  · intro t cs hsp h
    simp [parseReadStart, hsp, h]
  · intro t e h
    simp [readParses, h]
  · intro t e h
    simp [readParses, h]
  · intro cfg lines line cid t reads hin hsplit hmin hmax hmem hfail
    have hpl := fun st => processLine_error hsplit hmin hmax hmem hfail st
    obtain ⟨e, he⟩ := processLines_error hpl hin { store := [], dbRows := [] }
    refine ⟨⟨e, he⟩, ?_⟩
    rw [show generate_hsv cfg lines = .error e from he]
    rfl

/-- C9 (witness): the underscore-free token `"bad"` fails the full-mode
parse, and the size-eligible cluster `"c1 bad"` aborts the whole run,
leaving no contact files. -/
theorem c9_malformed_abort_witness :
    parseReadFull "bad" = .error .valueError ∧
    (∃ e, generate_hsv cfgE linesE = .error e) ∧
    contactFiles (generate_hsv cfgE linesE) = [] := by
  refine ⟨c9_malformed_abort.1 "bad" (by decide), ?_⟩
  exact c9_malformed_abort.2.2.2.2.2.2.2.2 cfgE linesE "c1 bad" "c1" "bad"
    ["bad"] (by decide) rfl (by decide) (by decide) (by decide) rfl

/-- C10: a key exists in the contact store only once a validated line was
appended under it, so in a completed run every stored key owns a non-empty
list of `start1,start2,weight` lines and every written per-pair file is a
non-empty string; no file arises for a pair with zero retained contacts. -/
theorem c10_files_nonempty (cfg : Config) (lines : List String)
    (st : RunState) (hrun : generate_hsv cfg lines = .ok st) :
    (∀ kl ∈ st.store, kl.2 ≠ [] ∧ ∀ line ∈ kl.2, GoodLine line) ∧
    ∀ fc ∈ contactFiles (generate_hsv cfg lines), fc.2 ≠ "" := by
  have hg := run_store_good hrun
  constructor
  · intro kl hkl
    exact ⟨(hg kl hkl).2.1, (hg kl hkl).2.2⟩
  · intro fc hfc
    rw [hrun] at hfc
    simp only [contactFiles] at hfc
    rcases List.mem_map.mp hfc with ⟨kl, hkl, rfl⟩
    obtain ⟨_, hne, hlines⟩ := hg kl hkl
    show joinLines kl.2 ≠ ""
    rcases hkl2 : kl.2 with _ | ⟨l, ls⟩
    · exact absurd hkl2 hne
    · have hl : GoodLine l := hlines l (by rw [hkl2]; exact List.mem_cons_self l ls)
      exact joinLines_ne_empty (goodLine_data_ne hl)

/-- C10 (witness): the fixture run's first stored key owns one line, and its
written file content is the non-empty string of that line. -/
theorem c10_files_nonempty_witness :
    (["10,30,2"] : List String) ≠ [] ∧ ("10,30,2" : String) ≠ "" :=
  ⟨((c10_files_nonempty cfgB linesB stB rfl).1
      ("chr1-chr1", ["10,30,2"]) (by decide)).1,
   (c10_files_nonempty cfgB linesB stB rfl).2
     ("chr1-chr1.txt", "10,30,2") (by decide)⟩

end MultiVis
